import Mathlib

/-!
Verification development for the `code_reviewer` tool (`src/main.rs`).

The Rust program is a linear pipeline: load configuration, walk the
working tree for context files, obtain a `git diff`, assemble a review
prompt, POST it to an Ollama endpoint, and reassemble the line-delimited
streamed response.  Each component below is a shallow embedding of the
corresponding Rust code; external effects (the filesystem walk, the
subprocess, the HTTP exchange, the serde decoders) are represented by
explicit data so that every function is executable and provable.
-/

/-! ### Review response fragments (`OllamaResponse`, main.rs lines 42-48)

`OllamaResponse` has `#[serde(default)]` on both fields: a decoded JSON
object lacking `response` yields `""` and one lacking `done` yields
`false`.  A response-body line is modelled after the outcome of
`serde_json::from_str`: either it is not a JSON object at all
(`malformed`), or it is an object given by its key/value fields.  Values
are modelled only as finely as the decoder distinguishes them: a JSON
string, a JSON boolean, or anything else (which serde rejects for the
typed fields). -/

structure OllamaResponse where
  response : String
  done : Bool
  deriving DecidableEq, Repr

inductive JVal where
  | jstr (s : String)
  | jbool (b : Bool)
  | jother
  deriving DecidableEq, Repr

inductive RespLine where
  | malformed
  | jsonObj (fields : List (String × JVal))
  deriving DecidableEq, Repr

/-- Decoding of an optional string field with a serde default: absent
fields take the default, a present string is taken verbatim, any other
value is a decode error. -/
def decodeStrField (dflt : String) : Option JVal → Option String
  | none => some dflt
  | some (JVal.jstr s) => some s
  | some _ => none

/-- Decoding of an optional boolean field with a serde default. -/
def decodeBoolField (dflt : Bool) : Option JVal → Option Bool
  | none => some dflt
  | some (JVal.jbool b) => some b
  | some _ => none

/-- Model of `serde_json::from_str::<OllamaResponse>(line)` (used at
main.rs line 158): a non-object line fails; an object decodes when its
`response` field is absent or a string (default `""`) and its `done`
field is absent or a boolean (default `false`); unknown fields are
ignored. -/
def decodeLine : RespLine → Option OllamaResponse
  | RespLine.malformed => none
  | RespLine.jsonObj fields =>
    match decodeStrField "" (List.lookup "response" fields),
          decodeBoolField false (List.lookup "done" fields) with
    | some r, some d => some ⟨r, d⟩
    | _, _ => none

/-- The response-assembly loop of `review_changes` (main.rs lines
156-164): for each line, a successful decode appends its `response`
text, and a fragment with `done = true` stops the loop after its text
has been appended; failed decodes are skipped. -/
def parseBodyLines : List RespLine → String
  | [] => ""
  | l :: rest =>
    match decodeLine l with
    | none => parseBodyLines rest
    | some r => if r.done then r.response else r.response ++ parseBodyLines rest

/-- The fragments consumed by the loop: everything up to and including
the first fragment whose `done` flag is set. -/
def takeThroughDone : List OllamaResponse → List OllamaResponse
  | [] => []
  | r :: rest => if r.done then [r] else r :: takeThroughDone rest

/-- Left-to-right concatenation of the `response` fields. -/
def concatResponses : List OllamaResponse → String
  | [] => ""
  | r :: rest => r.response ++ concatResponses rest

/-! ### String helpers -/

theorem strAppendAssoc (a b c : String) : a ++ b ++ c = a ++ (b ++ c) := by
  apply String.ext
  simp [String.data_append, List.append_assoc]

theorem strAppendEmpty (a : String) : a ++ "" = a := by
  apply String.ext
  simp [String.data_append]

theorem strEmptyAppend (a : String) : "" ++ a = a := by
  apply String.ext
  simp [String.data_append]

theorem parseBodyLines_assembly (lines : List RespLine) :
    parseBodyLines lines =
      concatResponses (takeThroughDone (lines.filterMap decodeLine)) := by
  induction lines with
  | nil => rfl
  | cons l rest ih =>
    cases h : decodeLine l with
    | none => simp [parseBodyLines, List.filterMap_cons, h, ih]
    | some r =>
      cases hd : r.done with
      | false =>
        simp [parseBodyLines, List.filterMap_cons, h, hd, takeThroughDone,
              concatResponses, ih]
      | true =>
        simp [parseBodyLines, List.filterMap_cons, h, hd, takeThroughDone,
              concatResponses, strAppendEmpty]

/-- Claim C1: for every response body, the review text returned by the Inference Client is the left-to-right concatenation of the `response` fields
of the successfully decoded fragment lines, in body order, stopping at
(and including) the first fragment whose `done` flag is true; fragments
after that one contribute nothing.  In particular, for the body with
lines decoding `response:"A" done:false`, `response:"B" done:true`,
`response:"C" done:false`, the result is exactly `"AB"`. -/
theorem C1_stream_assembly :
    (∀ lines : List RespLine,
      parseBodyLines lines =
        concatResponses (takeThroughDone (lines.filterMap decodeLine))) ∧
    parseBodyLines
      [RespLine.jsonObj [("response", JVal.jstr "A"), ("done", JVal.jbool false)],
       RespLine.jsonObj [("response", JVal.jstr "B"), ("done", JVal.jbool true)],
       RespLine.jsonObj [("response", JVal.jstr "C"), ("done", JVal.jbool false)]]
      = "AB" := by
  refine ⟨parseBodyLines_assembly, ?_⟩
  decide

/-- Claim C4: a line that fails to decode, sandwiched between two lines
that decode successfully, is skipped without failing; the text chunks
of the two valid fragments are still concatenated in order. -/
theorem C4_malformed_line_skipped (l1 bad l2 : RespLine) (rest : List RespLine)
    (r1 r2 : OllamaResponse)
    (h1 : decodeLine l1 = some r1) (hbad : decodeLine bad = none)
    (h2 : decodeLine l2 = some r2) (hdone : r1.done = false) :
    parseBodyLines (l1 :: bad :: l2 :: rest) = parseBodyLines (l1 :: l2 :: rest) ∧
    parseBodyLines (l1 :: bad :: l2 :: rest) =
      r1.response ++
        (if r2.done then r2.response else r2.response ++ parseBodyLines rest) := by
  constructor <;> simp [parseBodyLines, h1, hbad, h2, hdone]

theorem C4_witness :
    parseBodyLines
      [RespLine.jsonObj [("response", JVal.jstr "A"), ("done", JVal.jbool false)],
       RespLine.malformed,
       RespLine.jsonObj [("response", JVal.jstr "B"), ("done", JVal.jbool true)]]
      = parseBodyLines
      [RespLine.jsonObj [("response", JVal.jstr "A"), ("done", JVal.jbool false)],
       RespLine.jsonObj [("response", JVal.jstr "B"), ("done", JVal.jbool true)]] :=
  (C4_malformed_line_skipped _ _ _ [] ⟨"A", false⟩ ⟨"B", true⟩
    (by decide) (by decide) (by decide) (by decide)).1

/-- Claim C9: a line that decodes as a JSON object with no `response`
field and no `done` field decodes to the defaulted fragment
`response = ""`, `done = false`, so it contributes no text and does not
terminate accumulation. -/
theorem C9_defaulted_fields (fields : List (String × JVal))
    (h1 : List.lookup "response" fields = none)
    (h2 : List.lookup "done" fields = none) :
    decodeLine (RespLine.jsonObj fields) = some ⟨"", false⟩ ∧
    ∀ rest : List RespLine,
      parseBodyLines (RespLine.jsonObj fields :: rest) = parseBodyLines rest := by
  have hdec : decodeLine (RespLine.jsonObj fields) = some ⟨"", false⟩ := by
    simp [decodeLine, h1, h2, decodeStrField, decodeBoolField]
  refine ⟨hdec, fun rest => ?_⟩
  simp [parseBodyLines, hdec, strEmptyAppend]

theorem C9_witness :
    decodeLine (RespLine.jsonObj [("context", JVal.jother)]) = some ⟨"", false⟩ ∧
    parseBodyLines [RespLine.jsonObj [("context", JVal.jother)], RespLine.malformed]
      = parseBodyLines [RespLine.malformed] :=
  ⟨(C9_defaulted_fields [("context", JVal.jother)] (by decide) (by decide)).1,
   (C9_defaulted_fields [("context", JVal.jother)] (by decide) (by decide)).2
     [RespLine.malformed]⟩

/-! ### Prompt assembly (`review_changes`, main.rs lines 115-131)

The prompt is the preamble holding the diff, the context header, one
block per sampled file (the iteration is cut off by
`.take(max_files_context)`), and the fixed five-item instruction text.
The unspecified `HashMap` iteration order of the snapshot is represented by
the order of the association list handed to the builder. -/

def promptIntro : String :=
  "As a code reviewer, analyze the following changes:\n\n```diff\n"

def promptIntroClose : String := "\n```\n\n"

/-- The `format!` at main.rs lines 115-118. -/
def promptPreamble (diff : String) : String :=
  promptIntro ++ diff ++ promptIntroClose

def contextHeader : String := "Relevant files from the codebase for context:\n\n"

def fileBlockOpen : String := ":\n```\n"

def fileBlockClose : String := "\n```\n\n"

/-- The per-file `format!` at main.rs line 123. -/
def fileBlock (filename content : String) : String :=
  filename ++ fileBlockOpen ++ content ++ fileBlockClose

/-- The fixed closing instruction (main.rs lines 126-131; the Rust `\`
line continuations splice the lines together with no extra spaces). -/
def reviewChecklist : String :=
  "\nPlease provide a detailed code review focusing on:\n1. Potential bugs or issues\n2. Code style and best practices\n3. Performance implications\n4. Security considerations\n5. Suggestions for improvement"

/-- The snapshot entries actually embedded:
`codebase_context.iter().take(max_files_context)` (main.rs line 122). -/
def promptFileList (ctx : List (String × String)) (n : Nat) :
    List (String × String) :=
  ctx.take n

/-- The file-block section accumulated by the loop at main.rs
lines 122-124. -/
def concatBlocks : List (String × String) → String
  | [] => ""
  | p :: rest => fileBlock p.1 p.2 ++ concatBlocks rest

/-- The full prompt built by `review_changes` before the request is
sent (main.rs lines 115-131). -/
def buildPrompt (diff : String) (ctx : List (String × String)) (n : Nat) :
    String :=
  promptPreamble diff ++ contextHeader ++ concatBlocks (promptFileList ctx n)
    ++ reviewChecklist

/-- `small` occurs contiguously (and wholly) inside `big`. -/
def ContainsStr (big small : String) : Prop :=
  ∃ u v, big = u ++ small ++ v

theorem concatBlocks_append (xs ys : List (String × String)) :
    concatBlocks (xs ++ ys) = concatBlocks xs ++ concatBlocks ys := by
  induction xs with
  | nil => simp [concatBlocks, strEmptyAppend]
  | cons p rest ih => simp [concatBlocks, ih, strAppendAssoc]

/-- Claim C2: the prompt contains the diff verbatim, contains at most
`n` file blocks (the sampled list never exceeds `n` entries, however
large the snapshot), contains the fixed five-item review checklist, and
embeds the content of each included file whole, untruncated. -/
theorem C2_prompt_shape (diff : String) (ctx : List (String × String)) (n : Nat) :
    ContainsStr (buildPrompt diff ctx n) diff ∧
    (promptFileList ctx n).length ≤ n ∧
    ContainsStr (buildPrompt diff ctx n) reviewChecklist ∧
    ∀ p ∈ promptFileList ctx n, ContainsStr (buildPrompt diff ctx n) p.2 := by
  refine ⟨?_, ?_, ?_, ?_⟩
  · refine ⟨promptIntro,
      promptIntroClose ++ contextHeader ++ concatBlocks (promptFileList ctx n)
        ++ reviewChecklist, ?_⟩
    apply String.ext
    simp [buildPrompt, promptPreamble, String.data_append, List.append_assoc]
  · simp [promptFileList, List.length_take_le n ctx]
  · refine ⟨promptPreamble diff ++ contextHeader
      ++ concatBlocks (promptFileList ctx n), "", ?_⟩
    apply String.ext
    simp [buildPrompt, String.data_append, List.append_assoc]
  · intro p hp
    obtain ⟨s, t, hst⟩ := List.append_of_mem hp
    refine ⟨promptPreamble diff ++ contextHeader ++ concatBlocks s
        ++ (p.1 ++ fileBlockOpen),
      fileBlockClose ++ concatBlocks t ++ reviewChecklist, ?_⟩
    rw [buildPrompt, hst, concatBlocks_append]
    apply String.ext
    simp [concatBlocks, fileBlock, String.data_append, List.append_assoc]

theorem C2_witness :
    ContainsStr (buildPrompt "DIFF" [("main.rs", "BODY")] 5) "BODY" ∧
    (promptFileList [("main.rs", "BODY")] 5).length ≤ 5 :=
  ⟨(C2_prompt_shape "DIFF" [("main.rs", "BODY")] 5).2.2.2 ("main.rs", "BODY")
      (by decide),
   (C2_prompt_shape "DIFF" [("main.rs", "BODY")] 5).2.1⟩

/-! ### Configuration loading (`Settings` and `main`, main.rs 12-26 and 173-186)

`main` builds a `Config` from two optional file sources
(`File::with_name("config").required(false)` and likewise for
`config.toml`) and then deserializes it.  A source file is modelled by
its observable state: absent (tolerated because of `required(false)`),
present but unparseable (`build()` of the `config` crate returns the
parse error, which `main` propagates with `?`), or parsed to key/value
pairs.  `try_deserialize` failure, by contrast, is caught by
`unwrap_or_else`, which substitutes the built-in defaults. -/

def default_ollama_url : String := "http://localhost:11434"

def default_model : String := "codellama"

structure Settings where
  ollama_url : String
  model : String
  deriving DecidableEq, Repr

inductive ConfigSource where
  | absent
  | unparseable (e : String)
  | parsed (kv : List (String × JVal))
  deriving DecidableEq, Repr

/-- Association-list update with the overwrite semantics of a map
insert. -/
def eraseKeyJ : List (String × JVal) → String → List (String × JVal)
  | [], _ => []
  | p :: rest, k => if p.1 = k then eraseKeyJ rest k else p :: eraseKeyJ rest k

def insertJ (m : List (String × JVal)) (k : String) (v : JVal) :
    List (String × JVal) :=
  (k, v) :: eraseKeyJ m k

/-- Merging a parsed source into the accumulated configuration: later
sources override earlier ones. -/
def configMerge (base extra : List (String × JVal)) : List (String × JVal) :=
  extra.foldl (fun m p => insertJ m p.1 p.2) base

/-- Model of `Config::builder().add_source(...).build()` (main.rs lines
173-176): absent sources are skipped, a parse failure of any present
source fails the whole build, parsed sources are merged in order. -/
def configBuild (sources : List ConfigSource) :
    Except String (List (String × JVal)) :=
  sources.foldl
    (fun acc s =>
      match acc, s with
      | Except.error e, _ => Except.error e
      | Except.ok m, ConfigSource.absent => Except.ok m
      | Except.ok _, ConfigSource.unparseable e => Except.error e
      | Except.ok m, ConfigSource.parsed kv => Except.ok (configMerge m kv))
    (Except.ok [])

/-- One field of `Settings` under `#[serde(default = ...)]` (main.rs
lines 12-18): a missing key takes the default, a string value is taken
verbatim, any other value is a deserialization error. -/
def settingsField (dflt : String) : Option JVal → Except String String
  | none => Except.ok dflt
  | some (JVal.jstr s) => Except.ok s
  | some _ => Except.error "invalid type"

/-- Model of `config.try_deserialize::<Settings>()` (main.rs line 178),
with the two defaulted fields of `Settings`. -/
def tryDeserializeSettings (m : List (String × JVal)) : Except String Settings :=
  match settingsField default_ollama_url (List.lookup "ollama_url" m),
        settingsField default_model (List.lookup "model" m) with
  | Except.ok u, Except.ok md => Except.ok ⟨u, md⟩
  | Except.error e, _ => Except.error e
  | _, Except.error e => Except.error e

/-- The configuration phase of `main` (main.rs lines 173-181): the
build error is propagated with `?`; a deserialization error is replaced
by the built-in defaults via `unwrap_or_else`. -/
def loadSettings (cfgFile cfgTomlFile : ConfigSource) : Except String Settings :=
  match configBuild [cfgFile, cfgTomlFile] with
  | Except.error e => Except.error e
  | Except.ok m =>
    Except.ok
      (match tryDeserializeSettings m with
       | Except.ok s => s
       | Except.error _ => ⟨default_ollama_url, default_model⟩)

/-- Claim C8: with no configuration file present, the loaded `Settings`
are exactly the built-in defaults. -/
theorem C8_default_settings :
    loadSettings ConfigSource.absent ConfigSource.absent =
      Except.ok ⟨"http://localhost:11434", "codellama"⟩ := rfl

/-- Claim C3, counterexample: a configuration file whose contents fail
to parse makes `build()` fail, and `main` propagates that failure with
`?` — the run aborts instead of falling back to the defaults. -/
theorem C3_counterexample :
    loadSettings (ConfigSource.unparseable "unbalanced toml quotes")
        ConfigSource.absent
      = Except.error "unbalanced toml quotes" ∧
    ∀ s : Settings,
      loadSettings (ConfigSource.unparseable "unbalanced toml quotes")
          ConfigSource.absent
        ≠ Except.ok s :=
  ⟨rfl, fun _ h => Except.noConfusion h⟩

/-- Claim C3, amended: a configuration file that parses but fails to
deserialize into `Settings` is recoverable — the defaults are used and
execution continues; a configuration file that fails to parse fails the
configuration build and the run aborts with that error. -/
theorem C3_deserialize_fallback (kv : List (String × JVal)) (e : String)
    (hde : tryDeserializeSettings (configMerge [] kv) = Except.error e) :
    loadSettings (ConfigSource.parsed kv) ConfigSource.absent =
      Except.ok ⟨default_ollama_url, default_model⟩ ∧
    ∀ msg, loadSettings (ConfigSource.unparseable msg) ConfigSource.absent =
      Except.error msg := by
  refine ⟨?_, fun msg => rfl⟩
  simp [loadSettings, configBuild, List.foldl, hde]

theorem C3_witness :
    loadSettings (ConfigSource.parsed [("model", JVal.jbool true)])
        ConfigSource.absent
      = Except.ok ⟨default_ollama_url, default_model⟩ :=
  (C3_deserialize_fallback [("model", JVal.jbool true)] "invalid type" rfl).1

/-! ### Diff retrieval (`get_git_diff`, main.rs lines 59-71)

The subprocess is modelled by a function from the argument list to its
outcome: either the command cannot be launched (`cmd.output()` returns
an `io::Error`, propagated by `?`), or it ran and produced an exit
status and stdout bytes.  `String::from_utf8(output.stdout)?` is
modelled by a strict UTF-8 decoder over the byte list; its failure is a
`FromUtf8Error`, a distinct error from the launch `io::Error`.  The
exit status is never inspected. -/

structure CommandOutput where
  status : Int
  stdout : List Nat
  deriving DecidableEq, Repr

inductive LaunchOutcome where
  | ioError (e : String)
  | ran (output : CommandOutput)
  deriving DecidableEq, Repr

inductive DiffError where
  | ioErr (e : String)
  | utf8Err
  deriving DecidableEq, Repr

def contByte (b : Nat) : Bool := 128 ≤ b && b < 192

/-- Strict UTF-8 validation and decoding of a byte list, as performed
by the Rust function `String::from_utf8`: rejects stray continuation bytes,
overlong encodings, surrogate code points and code points above
`0x10FFFF`. -/
def utf8DecodeChars : List Nat → Option (List Char)
  | [] => some []
  | b :: rest =>
    if b < 128 then
      (utf8DecodeChars rest).map (fun cs => Char.ofNat b :: cs)
    else if b < 194 then none
    else if b < 224 then
      match rest with
      | [] => none
      | b1 :: rest2 =>
        if contByte b1 then
          (utf8DecodeChars rest2).map
            (fun cs => Char.ofNat ((b - 192) * 64 + (b1 - 128)) :: cs)
        else none
    else if b < 240 then
      match rest with
      | b1 :: b2 :: rest3 =>
        if (if b = 224 then decide (160 ≤ b1) && decide (b1 < 192)
            else if b = 237 then decide (128 ≤ b1) && decide (b1 < 160)
            else contByte b1) && contByte b2 then
          (utf8DecodeChars rest3).map
            (fun cs =>
              Char.ofNat ((b - 224) * 4096 + (b1 - 128) * 64 + (b2 - 128)) :: cs)
        else none
      | _ => none
    else if b < 245 then
      match rest with
      | b1 :: b2 :: b3 :: rest4 =>
        if (if b = 240 then decide (144 ≤ b1) && decide (b1 < 192)
            else if b = 244 then decide (128 ≤ b1) && decide (b1 < 144)
            else contByte b1) && contByte b2 && contByte b3 then
          (utf8DecodeChars rest4).map
            (fun cs =>
              Char.ofNat ((b - 240) * 262144 + (b1 - 128) * 4096
                + (b2 - 128) * 64 + (b3 - 128)) :: cs)
        else none
      | _ => none
    else none

/-- Model of `String::from_utf8` on captured stdout bytes. -/
def utf8Decode (bs : List Nat) : Option String :=
  (utf8DecodeChars bs).map (fun cs => String.mk cs)

/-- The argument list built at main.rs lines 60-67:
`git diff [--staged] <path>` (the leading `git` is the program name). -/
def gitDiffArgs (path : String) (staged : Bool) : List String :=
  ["diff"] ++ (if staged then ["--staged"] else []) ++ [path]

/-- Model of `get_git_diff` (main.rs lines 59-71): launch failure is
propagated as an I/O error; otherwise the stdout bytes are decoded as
UTF-8 and returned, with a decode failure propagated as a (non-I/O)
UTF-8 error.  The exit status is ignored. -/
def get_git_diff (path : String) (staged : Bool)
    (exec : List String → LaunchOutcome) : Except DiffError String :=
  match exec (gitDiffArgs path staged) with
  | LaunchOutcome.ioError e => Except.error (DiffError.ioErr e)
  | LaunchOutcome.ran out =>
    match utf8Decode out.stdout with
    | some s => Except.ok s
    | none => Except.error DiffError.utf8Err

/-- Claim C5: for every path scope and staged flag, the Diff Source
returns the stdout of the command, decoded as text, verbatim — including the
empty string when the diff is empty — regardless of the exit status;
and it fails with an I/O error exactly when the external command cannot
be launched. -/
theorem C5_diff_source (path : String) (staged : Bool)
    (exec : List String → LaunchOutcome) :
    (∀ e, exec (gitDiffArgs path staged) = LaunchOutcome.ioError e →
      get_git_diff path staged exec = Except.error (DiffError.ioErr e)) ∧
    (∀ out s, exec (gitDiffArgs path staged) = LaunchOutcome.ran out →
      utf8Decode out.stdout = some s →
      get_git_diff path staged exec = Except.ok s) ∧
    (∀ status, exec (gitDiffArgs path staged) = LaunchOutcome.ran ⟨status, []⟩ →
      get_git_diff path staged exec = Except.ok "") ∧
    ((∃ e, get_git_diff path staged exec = Except.error (DiffError.ioErr e)) ↔
      (∃ e, exec (gitDiffArgs path staged) = LaunchOutcome.ioError e)) := by
  refine ⟨?_, ?_, ?_, ?_⟩
  · intro e h
    simp [get_git_diff, h]
  · intro out s h hdec
    simp [get_git_diff, h, hdec]
  · intro status h
    simp [get_git_diff, h]
    rfl
  · constructor
    · rintro ⟨e, he⟩
      cases hx : exec (gitDiffArgs path staged) with
      | ioError e2 => exact ⟨e2, rfl⟩
      | ran out =>
        rw [get_git_diff, hx] at he
        cases hdec : utf8Decode out.stdout with
        | none => simp [hdec] at he
        | some s => simp [hdec] at he
    · rintro ⟨e, he⟩
      exact ⟨e, by simp [get_git_diff, he]⟩

theorem C5_witness :
    get_git_diff "." false (fun _ => LaunchOutcome.ioError "launch failed") =
      Except.error (DiffError.ioErr "launch failed") :=
  (C5_diff_source "." false (fun _ => LaunchOutcome.ioError "launch failed")).1
    "launch failed" rfl

/-- Claim C10: when the stdout bytes of the launched diff command are not
valid UTF-8, the Diff Source returns an error (the `String::from_utf8`
failure) rather than the captured output, even though the command
launched and ran. -/
theorem C10_invalid_utf8 (path : String) (staged : Bool)
    (exec : List String → LaunchOutcome) (out : CommandOutput)
    (h : exec (gitDiffArgs path staged) = LaunchOutcome.ran out)
    (hbad : utf8Decode out.stdout = none) :
    get_git_diff path staged exec = Except.error DiffError.utf8Err := by
  simp [get_git_diff, h, hbad]

theorem C10_witness :
    get_git_diff "." false (fun _ => LaunchOutcome.ran ⟨0, [255]⟩) =
      Except.error DiffError.utf8Err :=
  C10_invalid_utf8 "." false (fun _ => LaunchOutcome.ran ⟨0, [255]⟩)
    ⟨0, [255]⟩ rfl (by decide)

/-! ### File walk (`tokenize_codebase`, main.rs lines 73-107)

`ignore::Walk` yields a sequence of entries — either a directory entry
with a path, or an access error.  The crate applies the ignore rules,
so the entry sequence given to the embedded function already represents
exactly the non-ignored paths under the root.  Paths are modelled as
component lists; each `Ok` entry carries the outcome of `path.is_file()`
and of `fs::read_to_string(path)`.  `eprintln!` warnings are modelled
by an output list of strings accumulated alongside the snapshot. -/

deriving instance DecidableEq for Except

structure WalkEntryData where
  path : List String
  is_file : Bool
  read : Except String String
  deriving DecidableEq, Repr

inductive WalkEntry where
  | ok (entry : WalkEntryData)
  | err (msg : String)
  deriving DecidableEq, Repr

/-- Model of `Path::strip_prefix` on component lists (main.rs line 84):
succeeds exactly when the root is a leading run of components, yielding
the remainder. -/
def pathStripRoot : List String → List String → Option (List String)
  | [], p => some p
  | _ :: _, [] => none
  | r :: rs, x :: xs => if r = x then pathStripRoot rs xs else none

/-- Association-list lookup for the snapshot (keys are relative paths). -/
def lookupA : List (List String × String) → List String → Option String
  | [], _ => none
  | p :: rest, k => if p.1 = k then some p.2 else lookupA rest k

def eraseKeyA : List (List String × String) → List String → List (List String × String)
  | [], _ => []
  | p :: rest, k => if p.1 = k then eraseKeyA rest k else p :: eraseKeyA rest k

/-- `HashMap::insert`: the new binding replaces any previous binding of
the same key. -/
def insertA (m : List (List String × String)) (k : List String) (v : String) :
    List (List String × String) :=
  (k, v) :: eraseKeyA m k

def readWarning (p : List String) (e : String) : String :=
  "Warning: Could not read file " ++ String.intercalate "/" p ++ ": " ++ e

def accessWarning (e : String) : String :=
  "Warning: Error accessing path: " ++ e

def noReadableWarning : String :=
  "Warning: No readable files found in the codebase"

/-- One iteration of the walk loop (main.rs lines 76-100), acting on
the pair of the snapshot built so far and the warnings emitted so far:
an access error warns and continues; a non-file entry is skipped; a file
whose read fails warns and continues; a readable file is inserted under
its root-stripped path (and silently skipped if the root is not a
prefix). -/
def tokStep (root : List String)
    (st : List (List String × String) × List String) :
    WalkEntry → List (List String × String) × List String
  | WalkEntry.err e => (st.1, st.2 ++ [accessWarning e])
  | WalkEntry.ok entry =>
    if entry.is_file then
      match entry.read with
      | Except.ok content =>
        match pathStripRoot root entry.path with
        | some rel => (insertA st.1 rel content, st.2)
        | none => st
      | Except.error e => (st.1, st.2 ++ [readWarning entry.path e])
    else st

/-- Model of `tokenize_codebase` (main.rs lines 73-107): fold the loop
over the walk entries starting from the empty snapshot, then emit the
final warning if the snapshot is empty.  The function always returns
`Ok`. -/
def tokenize_codebase (root : List String) (walk : List WalkEntry) :
    Except String (List (List String × String) × List String) :=
  let st := walk.foldl (tokStep root) ([], [])
  if st.1 = [] then Except.ok (st.1, st.2 ++ [noReadableWarning])
  else Except.ok st

/-- The snapshot component of the loop, in isolation. -/
def tokMapStep (root : List String) (m : List (List String × String)) :
    WalkEntry → List (List String × String)
  | WalkEntry.err _ => m
  | WalkEntry.ok entry =>
    if entry.is_file then
      match entry.read with
      | Except.ok content =>
        match pathStripRoot root entry.path with
        | some rel => insertA m rel content
        | none => m
      | Except.error _ => m
    else m

/-- The warnings one entry contributes. -/
def tokWarn : WalkEntry → List String
  | WalkEntry.err e => [accessWarning e]
  | WalkEntry.ok entry =>
    if entry.is_file then
      match entry.read with
      | Except.ok _ => []
      | Except.error e => [readWarning entry.path e]
    else []

def tokWarnList : List WalkEntry → List String
  | [] => []
  | e :: rest => tokWarn e ++ tokWarnList rest

/-- An entry that yields a readable file. -/
def entryReadable : WalkEntry → Bool
  | WalkEntry.err _ => false
  | WalkEntry.ok entry =>
    entry.is_file &&
      (match entry.read with
       | Except.ok _ => true
       | Except.error _ => false)

/-- The relative-path/content pair an entry contributes to the
snapshot, if any. -/
def extractEntry (root : List String) : WalkEntry → Option (List String × String)
  | WalkEntry.err _ => none
  | WalkEntry.ok entry =>
    if entry.is_file then
      match entry.read with
      | Except.ok content =>
        match pathStripRoot root entry.path with
        | some rel => some (rel, content)
        | none => none
      | Except.error _ => none
    else none

theorem tokStep_eq (root : List String)
    (st : List (List String × String) × List String) (e : WalkEntry) :
    tokStep root st e = (tokMapStep root st.1 e, st.2 ++ tokWarn e) := by
  cases e with
  | err msg => rfl
  | ok entry =>
    cases hf : entry.is_file with
    | false => simp [tokStep, tokMapStep, tokWarn, hf]
    | true =>
      cases hr : entry.read with
      | error msg => simp [tokStep, tokMapStep, tokWarn, hf, hr]
      | ok content =>
        cases hs : pathStripRoot root entry.path with
        | none => simp [tokStep, tokMapStep, tokWarn, hf, hr, hs]
        | some rel => simp [tokStep, tokMapStep, tokWarn, hf, hr, hs]

theorem foldl_tokStep (root : List String) (walk : List WalkEntry) :
    ∀ (m : List (List String × String)) (w : List String),
      walk.foldl (tokStep root) (m, w) =
        (walk.foldl (tokMapStep root) m, w ++ tokWarnList walk) := by
  induction walk with
  | nil => intro m w; simp [tokWarnList]
  | cons e rest ih =>
    intro m w
    simp only [List.foldl_cons, tokStep_eq, tokWarnList]
    rw [ih]
    simp [List.append_assoc]

theorem tokWarnList_append (xs ys : List WalkEntry) :
    tokWarnList (xs ++ ys) = tokWarnList xs ++ tokWarnList ys := by
  induction xs with
  | nil => simp [tokWarnList]
  | cons e rest ih => simp [tokWarnList, ih]

theorem tokMap_unchanged_of_unreadable (root : List String) :
    ∀ (walk : List WalkEntry) (m : List (List String × String)),
      (∀ ent ∈ walk, entryReadable ent = false) →
      walk.foldl (tokMapStep root) m = m := by
  intro walk
  induction walk with
  | nil => intro m _; rfl
  | cons ent rest ih =>
    intro m hall
    have hent : entryReadable ent = false := hall ent (List.mem_cons_self _ _)
    have hstep : tokMapStep root m ent = m := by
      cases ent with
      | err msg => rfl
      | ok entry =>
        cases hf : entry.is_file with
        | false => simp [tokMapStep, hf]
        | true =>
          cases hr : entry.read with
          | error msg => simp [tokMapStep, hf, hr]
          | ok content =>
            exfalso
            rw [entryReadable, hf, hr] at hent
            simp at hent
    rw [List.foldl_cons, hstep]
    exact ih m (fun x hx => hall x (List.mem_cons_of_mem _ hx))

/-- Claim C6: a per-file read failure is recoverable — the walk result
is `Ok`, the failing file merely adds a warning and leaves the snapshot
the same as if the entry had not been there; and a walk yielding zero
readable files returns the empty snapshot as a success, with the
"no readable files" warning emitted. -/
theorem C6_recoverable_walk (root : List String) (pre post : List WalkEntry)
    (p : List String) (e : String) :
    (∃ w, tokenize_codebase root
          (pre ++ WalkEntry.ok ⟨p, true, Except.error e⟩ :: post) =
        Except.ok ((pre ++ post).foldl (tokMapStep root) [], w) ∧
      readWarning p e ∈ w) ∧
    (∀ walk : List WalkEntry, (∀ ent ∈ walk, entryReadable ent = false) →
      ∃ w, tokenize_codebase root walk = Except.ok ([], w) ∧
        noReadableWarning ∈ w) := by
  constructor
  · have hmap : (pre ++ WalkEntry.ok ⟨p, true, Except.error e⟩ :: post).foldl
        (tokMapStep root) [] = (pre ++ post).foldl (tokMapStep root) [] := by
      rw [List.foldl_append, List.foldl_append, List.foldl_cons]
      rfl
    have hwmem : readWarning p e ∈
        tokWarnList (pre ++ WalkEntry.ok ⟨p, true, Except.error e⟩ :: post) := by
      rw [tokWarnList_append]
      refine List.mem_append_right _ ?_
      show readWarning p e ∈ tokWarnList (WalkEntry.ok ⟨p, true, Except.error e⟩ :: post)
      simp [tokWarnList, tokWarn]
    rw [tokenize_codebase]
    simp only [foldl_tokStep, List.nil_append, hmap]
    by_cases hz : (pre ++ post).foldl (tokMapStep root) [] = []
    · simp only [hz, if_pos rfl]
      exact ⟨_, rfl, List.mem_append_left _ hwmem⟩
    · simp only [if_neg hz]
      exact ⟨_, rfl, hwmem⟩
  · intro walk hall
    rw [tokenize_codebase]
    simp only [foldl_tokStep, List.nil_append,
      tokMap_unchanged_of_unreadable root walk [] hall, if_pos rfl]
    exact ⟨_, rfl, List.mem_append_right _ (List.mem_singleton.mpr rfl)⟩

theorem C6_witness :
    ∃ w, tokenize_codebase [] [WalkEntry.err "permission denied"] =
        Except.ok ([], w) ∧ noReadableWarning ∈ w :=
  (C6_recoverable_walk [] [] [] ["f"] "io error").2
    [WalkEntry.err "permission denied"] (by decide)

theorem pathStripRoot_eq_some (root : List String) :
    ∀ (p k : List String), pathStripRoot root p = some k ↔ p = root ++ k := by
  induction root with
  | nil => intro p k; simp [pathStripRoot]
  | cons r rs ih =>
    intro p k
    cases p with
    | nil => simp [pathStripRoot]
    | cons x xs =>
      by_cases h : r = x
      · subst h
        simp [pathStripRoot, ih]
      · constructor
        · intro hc
          simp only [pathStripRoot] at hc
          rw [if_neg h] at hc
          cases hc
        · intro hc
          rw [List.cons_append] at hc
          injection hc with h1 h2
          exact absurd h1.symm h

theorem pathStripRoot_append (root k : List String) :
    pathStripRoot root (root ++ k) = some k :=
  (pathStripRoot_eq_some root (root ++ k) k).mpr rfl

theorem lookupA_eraseKeyA (m : List (List String × String)) (k k' : List String)
    (h : k' ≠ k) : lookupA (eraseKeyA m k) k' = lookupA m k' := by
  induction m with
  | nil => rfl
  | cons p rest ih =>
    simp only [eraseKeyA, lookupA]
    by_cases hp : p.1 = k
    · rw [if_pos hp, ih]
      have hnp : ¬ p.1 = k' := by rw [hp]; exact fun hc => h hc.symm
      rw [if_neg hnp]
    · rw [if_neg hp]
      simp only [lookupA]
      by_cases hq : p.1 = k'
      · rw [if_pos hq, if_pos hq]
      · rw [if_neg hq, if_neg hq, ih]

theorem lookupA_insertA (m : List (List String × String)) (k : List String)
    (v : String) (k' : List String) :
    lookupA (insertA m k v) k' = if k' = k then some v else lookupA m k' := by
  by_cases h : k' = k
  · subst h
    simp [insertA, lookupA]
  · have h2 : ¬ k = k' := fun hc => h hc.symm
    simp only [insertA, lookupA, if_neg h2, if_neg h]
    exact lookupA_eraseKeyA m k k' h

theorem lookupA_none_of_not_mem (m : List (List String × String))
    (k : List String) (h : k ∉ m.map Prod.fst) : lookupA m k = none := by
  induction m with
  | nil => rfl
  | cons p rest ih =>
    simp only [List.map_cons, List.mem_cons] at h
    push_neg at h
    have : ¬ p.1 = k := fun hc => h.1 hc.symm
    simp [lookupA, this, ih h.2]

theorem lookupA_of_mem_nodup (m : List (List String × String))
    (k : List String) (c : String) (hm : (k, c) ∈ m)
    (hnd : (m.map Prod.fst).Nodup) : lookupA m k = some c := by
  induction m with
  | nil => cases hm
  | cons p rest ih =>
    simp only [List.map_cons, List.nodup_cons] at hnd
    cases List.mem_cons.mp hm with
    | inl h =>
      rw [← h]
      simp [lookupA]
    | inr h =>
      have hk : k ∈ rest.map Prod.fst := List.mem_map.mpr ⟨(k, c), h, rfl⟩
      have : ¬ p.1 = k := fun hc => hnd.1 (hc ▸ hk)
      simp [lookupA, this, ih h hnd.2]

theorem mem_of_lookupA (m : List (List String × String)) (k : List String)
    (c : String) (h : lookupA m k = some c) : (k, c) ∈ m := by
  induction m with
  | nil => cases h
  | cons p rest ih =>
    obtain ⟨p1, p2⟩ := p
    simp only [lookupA] at h
    by_cases hp : p1 = k
    · rw [if_pos hp] at h
      injection h with h2
      exact List.mem_cons.mpr (Or.inl (by rw [← hp, ← h2]))
    · rw [if_neg hp] at h
      exact List.mem_cons_of_mem _ (ih h)

theorem tokMapStep_extract (root : List String)
    (m : List (List String × String)) (e : WalkEntry) :
    tokMapStep root m e =
      match extractEntry root e with
      | some p => insertA m p.1 p.2
      | none => m := by
  cases e with
  | err msg => rfl
  | ok entry =>
    cases hf : entry.is_file with
    | false => simp [tokMapStep, extractEntry, hf]
    | true =>
      cases hr : entry.read with
      | error msg => simp [tokMapStep, extractEntry, hf, hr]
      | ok content =>
        cases hs : pathStripRoot root entry.path with
        | none => simp [tokMapStep, extractEntry, hf, hr, hs]
        | some rel => simp [tokMapStep, extractEntry, hf, hr, hs]

theorem lookupA_foldl_tokMap (root : List String) :
    ∀ (walk : List WalkEntry) (m : List (List String × String)),
      (((walk.filterMap (extractEntry root)).map Prod.fst).Nodup) →
      ∀ k, lookupA (walk.foldl (tokMapStep root) m) k =
        match lookupA (walk.filterMap (extractEntry root)) k with
        | some v => some v
        | none => lookupA m k := by
  intro walk
  induction walk with
  | nil => intro m _ k; simp [List.filterMap_nil, lookupA]
  | cons e rest ih =>
    intro m hnd k
    rw [List.foldl_cons, tokMapStep_extract]
    cases hx : extractEntry root e with
    | none =>
      rw [List.filterMap_cons_none hx] at hnd ⊢
      exact ih m hnd k
    | some p =>
      obtain ⟨k', v⟩ := p
      rw [List.filterMap_cons_some hx] at hnd ⊢
      simp only [List.map_cons, List.nodup_cons] at hnd
      have hknotin : k' ∉ (rest.filterMap (extractEntry root)).map Prod.fst :=
        hnd.1
      rw [ih (insertA m k' v) hnd.2 k]
      by_cases hk : k = k'
      · subst hk
        rw [lookupA_none_of_not_mem _ _ hknotin]
        simp [lookupA, lookupA_insertA]
      · have hne : ¬ k' = k := fun hc => hk hc.symm
        simp only [lookupA, if_neg hne]
        cases hrest : lookupA (rest.filterMap (extractEntry root)) k with
        | some v2 => rfl
        | none => exact lookupA_eraseKeyA m k' k hk

theorem tokenize_codebase_eq (root : List String) (walk : List WalkEntry) :
    tokenize_codebase root walk =
      Except.ok (walk.foldl (tokMapStep root) [],
        tokWarnList walk ++
          (if walk.foldl (tokMapStep root) [] = [] then [noReadableWarning]
           else [])) := by
  rw [tokenize_codebase]
  simp only [foldl_tokStep, List.nil_append]
  by_cases hz : walk.foldl (tokMapStep root) [] = []
  · simp [hz]
  · simp [hz]

/-- Claim C7: every key of the returned snapshot is the path of a
walked file relative to the scan root (prepending the root recovers the
walked path, so no key is absolute or escapes the root), and the
snapshot binds exactly the readable files the walk yields — a key maps
to a content exactly when the walk contains a file entry at the
root-prefixed path whose read produced that content.  The walk sequence
stands for what `ignore::Walk` yields, i.e. the non-ignored entries
under the root; it is assumed not to repeat a relative path, as a
filesystem walk never visits a path twice. -/
theorem C7_snapshot_relative (root : List String) (walk : List WalkEntry)
    (hnodup : ((walk.filterMap (extractEntry root)).map Prod.fst).Nodup)
    (m : List (List String × String)) (w : List String)
    (hres : tokenize_codebase root walk = Except.ok (m, w))
    (k : List String) (c : String) :
    lookupA m k = some c ↔
      WalkEntry.ok ⟨root ++ k, true, Except.ok c⟩ ∈ walk := by
  rw [tokenize_codebase_eq] at hres
  simp only [Except.ok.injEq, Prod.mk.injEq] at hres
  obtain ⟨hm, hw⟩ := hres
  subst hm
  have hlk : lookupA (walk.foldl (tokMapStep root) []) k =
      lookupA (walk.filterMap (extractEntry root)) k := by
    rw [lookupA_foldl_tokMap root walk [] hnodup k]
    cases lookupA (walk.filterMap (extractEntry root)) k <;> rfl
  rw [hlk]
  constructor
  · intro h
    have hmem := mem_of_lookupA _ _ _ h
    obtain ⟨e, he, hx⟩ := List.mem_filterMap.mp hmem
    cases e with
    | err msg => simp [extractEntry] at hx
    | ok entry =>
      obtain ⟨pa, fi, re⟩ := entry
      cases hf : fi with
      | false => rw [hf] at hx; simp [extractEntry] at hx
      | true =>
        rw [hf] at hx he
        cases hr : re with
        | error msg => rw [hr] at hx; simp [extractEntry] at hx
        | ok content =>
          rw [hr] at hx he
          cases hs : pathStripRoot root pa with
          | none => rw [extractEntry] at hx; simp [hs] at hx
          | some rel =>
            rw [extractEntry] at hx
            simp only [hs, if_true, Option.some.injEq, Prod.mk.injEq] at hx
            have hpa : pa = root ++ rel := (pathStripRoot_eq_some root pa rel).mp hs
            rw [hpa, hx.1, hx.2] at he
            exact he
  · intro hmem
    have hx : extractEntry root (WalkEntry.ok ⟨root ++ k, true, Except.ok c⟩) =
        some (k, c) := by
      simp [extractEntry, pathStripRoot_append]
    have hmem2 : (k, c) ∈ walk.filterMap (extractEntry root) :=
      List.mem_filterMap.mpr ⟨_, hmem, hx⟩
    exact lookupA_of_mem_nodup _ _ _ hmem2 hnodup

theorem C7_witness :
    lookupA [(["a"], "code")] ["a"] = some "code" :=
  (C7_snapshot_relative ["r"]
      [WalkEntry.ok ⟨["r", "a"], true, Except.ok "code"⟩]
      (by decide) [(["a"], "code")] [] (by decide) ["a"] "code").mpr
    (by decide)
